import Mathlib

/-!
# The bounded-concurrency upload dispatcher of gphotosuploader

A shallow embedding of `utils/uploader.go`.  The dispatcher `ConcurrentUploader`
is a record; `NewUploader`, `AddUploadedFiles` and `EnqueueUpload` are functions on
it; the goroutine `uploadFile` and the blocking call `WaitUploadsCompleted` are
small-step programs with an explicit program counter, so that their statements can
be interleaved.  Statements that touch shared state are the atomic steps.

Conventions:
* a Go `error` is its message, `nil` is `none`;
* the buffered channel `concurrentLimiter` is a capacity and a queue of values;
* the three unbuffered outcome channels are the histories of the values handed
  over to their consumer (a send completes when the consumer takes the value);
* `map[string]bool` is a finite partial function, `none` meaning "key absent";
* the counter of a `sync.WaitGroup` is an integer; `Done` on a counter that would
  become negative panics, `Wait` blocks until the counter is zero;
* the results of calls that leave the package (`filepath.IsAbs`, `filepath.Abs`,
  `IsImageOrVideo`, `os.Open`, the `api` package) are inputs of the model, and so is
  the largest buffer size the runtime accepts in `make(chan bool, size)`;
* the assignment to the map at line 147 takes two steps, its start and its end; the
  runtime ends the program ("concurrent map writes", "concurrent map read and map
  write") when a goroutine starts to write or read the map while a unit is between the
  two.
-/

namespace GPhotosUploader

/-- The message of a Go `error` value. -/
abbrev GoError := String

/-! ## Data model -/

/-- The struct `auth.CookieCredentials`: three pointer fields, kept as references. -/
structure CookieCredentials where
  Client : Nat
  PersistentParameters : Nat
  RuntimeParameters : Nat
  deriving DecidableEq, Repr

/-- A buffered `chan bool`: the capacity given to `make` and the values queued in it. -/
structure BoolChan where
  cap : Nat
  buf : List Bool
  deriving DecidableEq, Repr

/-- The channel made by `make(chan bool, size)`.  The runtime panics ("makechan: size out
of range", `none`) when `size` is negative or larger than `maxSize`, the largest buffer
size it accepts. -/
def BoolChan.make (maxSize : Nat) (size : Int) : Option BoolChan :=
  if size < 0 ∨ (maxSize : Int) < size then none
  else some { cap := size.toNat, buf := [] }

/-- The send `c <- v`: completes when the buffer has room, otherwise blocks (`none`). -/
def BoolChan.send (c : BoolChan) (v : Bool) : Option BoolChan :=
  if c.buf.length < c.cap then some { c with buf := c.buf ++ [v] } else none

/-- The receive `<-c`: takes the oldest queued value, blocks (`none`) on an empty buffer. -/
def BoolChan.recv (c : BoolChan) : Option (Bool × BoolChan) :=
  match c.buf with
  | [] => none
  | v :: rest => some (v, { c with buf := rest })

/-- A Go `map[string]bool`. -/
abbrev StringSet := String → Option Bool

/-- The empty map of `make(map[string]bool)`. -/
def StringSet.empty : StringSet :=
  fun _ => none

/-- The assignment `m[key] = value`. -/
def StringSet.assign (m : StringSet) (key : String) (value : Bool) : StringSet :=
  fun k => if k = key then some value else m k

/-- The presence test `_, ok := m[key]`. -/
def StringSet.has (m : StringSet) (key : String) : Bool :=
  (m key).isSome

/-- The struct `ConcurrentUploader`. -/
structure ConcurrentUploader where
  credentials : CookieCredentials
  albumId : String
  concurrentLimiter : BoolChan
  uploadedFiles : StringSet
  waitingGroup : Int
  waiting : Bool
  CompletedUploads : List String
  IgnoredUploads : List String
  Errors : List GoError

/-- What the code takes from outside the file.  The calls of `EnqueueUpload` that leave
it: `filepath.IsAbs`, `filepath.Abs` and the classifier `IsImageOrVideo` of the package;
they are functions of the path: the working directory and the files are taken not to
change while the program runs.  And `maxChanSize`, the largest buffer size for which
`make(chan bool, size)` returns on the platform. -/
structure Env where
  isAbs : String → Bool
  abs : String → Except GoError String
  IsImageOrVideo : String → Except GoError Bool
  maxChanSize : Nat

/-- How a call of `NewUploader` ends: with a dispatcher and a nil error, with a nil
dispatcher and an error, or in a runtime panic. -/
inductive NewUploaderResult where
  | ok (u : ConcurrentUploader)
  | error (err : GoError)
  | panic (msg : String)

/-! ## Construction and seeding -/

/-- The constructor `NewUploader`: an error for a non-positive limit; otherwise the struct
literal is built, the limiter first, and the call panics when `make` refuses the size. -/
def NewUploader (env : Env) (credentials : CookieCredentials) (albumId : String)
    (maxConcurrentUploads : Int) : NewUploaderResult :=
  if maxConcurrentUploads ≤ 0 then
    .error "maxConcurrentUploads must be greater than zero"
  else
    match BoolChan.make env.maxChanSize maxConcurrentUploads with
    | none => .panic "makechan: size out of range"
    | some limiter =>
      .ok {
        credentials := credentials
        albumId := albumId
        concurrentLimiter := limiter
        uploadedFiles := StringSet.empty
        waitingGroup := 0
        waiting := false
        CompletedUploads := []
        IgnoredUploads := []
        Errors := [] }

/-- The method `AddUploadedFiles`: the loop `for _, name := range files`. -/
def AddUploadedFiles (u : ConcurrentUploader) (files : List String) : ConcurrentUploader :=
  files.foldl (fun acc name => { acc with uploadedFiles := acc.uploadedFiles.assign name true }) u

/-! ## Enqueue -/

/-- What a call of `EnqueueUpload` leaves behind: the returned error, the dispatcher,
the argument of the goroutine started by `go u.uploadFile(filePath)` if one was started,
and the line given to `log.Printf` if any. -/
structure EnqueueOutcome where
  err : Option GoError
  u : ConcurrentUploader
  spawned : Option String
  logged : Option String

/-- Lines 84-90 of `EnqueueUpload`: the path the rest of the method works with, and the
warning logged when `filepath.Abs` fails. -/
def absolutePath (env : Env) (filePath : String) : String × Option String :=
  if env.isAbs filePath then (filePath, none)
  else
    match env.abs filePath with
    | .error err =>
      (filePath,
        some ("Can't get the absolute path of file to upload, using relative path. Error: " ++ err))
    | .ok a => (a, none)

/-- The method `EnqueueUpload`. -/
def EnqueueUpload (env : Env) (u : ConcurrentUploader) (filePath : String) : EnqueueOutcome :=
  if u.waiting then
    { err := some "Can't add new uploads when waiting", u := u, spawned := none, logged := none }
  else
    let r := absolutePath env filePath
    let filePath := r.1
    if u.uploadedFiles.has filePath then
      { err := none, u := { u with IgnoredUploads := u.IgnoredUploads ++ [filePath] },
        spawned := none, logged := r.2 }
    else
      match env.IsImageOrVideo filePath with
      | .error err =>
        { err := none, u := { u with Errors := u.Errors ++ [err] },
          spawned := none, logged := r.2 }
      | .ok false =>
        { err := none, u := { u with IgnoredUploads := u.IgnoredUploads ++ [filePath] },
          spawned := none, logged := r.2 }
      | .ok true =>
        { err := none, u := { u with waitingGroup := u.waitingGroup + 1 },
          spawned := some filePath, logged := r.2 }

/-! ## The upload unit `uploadFile` -/

/-- The calls a unit registers with `defer`. -/
inductive Deferred where
  | decrementLimit
  | fileClose
  deriving DecidableEq, Repr

/-- The statement an upload unit executes next. -/
inductive PC where
  /-- Line 117, `u.concurrentLimiter <- true`, with the `defer` of line 118. -/
  | acquire
  /-- Line 121, `os.Open(filePath)`, with the `defer` of line 126. -/
  | openFile
  /-- Lines 129-134, `api.NewUploadOptionsFromFile(file)`. -/
  | newOptions
  /-- Line 137, `api.NewUpload(options, u.credentials)`. -/
  | newUpload
  /-- Line 144, `upload.Upload()`. -/
  | upload
  /-- The send `u.Errors <- err` of lines 123, 131, 139 (followed by `return`) and of
  line 145 (followed by the end of the `if`). -/
  | sendError (err : GoError) (thenReturn : Bool)
  /-- Line 147, `u.uploadedFiles[filePath] = true`, starts: the runtime marks the map as
  being written. -/
  | mapWriteBegin
  /-- Line 147 ends: the entry is stored and the mark is taken off. -/
  | mapWriteEnd
  /-- Line 148, `u.CompletedUploads <- filePath`. -/
  | sendCompleted
  /-- Line 151, `u.waitingGroup.Done()`. -/
  | wgDone
  /-- The function returns: the deferred calls run, last registered first. -/
  | returning
  /-- The goroutine has ended. -/
  | exited
  deriving DecidableEq, Repr

/-- The local state of one goroutine running `uploadFile(filePath)`. -/
structure UploadUnit where
  filePath : String
  pc : PC
  deferred : List Deferred
  deriving DecidableEq, Repr

/-- The goroutine started by `go u.uploadFile(filePath)`. -/
def UploadUnit.spawn (filePath : String) : UploadUnit :=
  { filePath := filePath, pc := .acquire, deferred := [] }

/-- The method `decrementLimit`, the receive `<-u.concurrentLimiter`; `none` when it
blocks. -/
def decrementLimit (u : ConcurrentUploader) : Option ConcurrentUploader :=
  match u.concurrentLimiter.recv with
  | none => none
  | some (_, c) => some { u with concurrentLimiter := c }

/-- The step of a call that leaves the package: on an error the unit goes on to report
it, otherwise to `next`. -/
def afterCall (t : UploadUnit) (res : Option GoError) (thenReturn : Bool) (next : PC) :
    UploadUnit :=
  match res with
  | some err => { t with pc := .sendError err thenReturn }
  | none => { t with pc := next }

/-- One atomic step of an upload unit, as far as the dispatcher and the unit itself are
concerned (what the other goroutines do to the map meanwhile is the matter of `step`).
`res` is the error returned by the call made in this step, if the step makes one.  `none`
when the step cannot complete: a send on the full limiter, a receive on the empty
limiter, `Done` on a counter that is not positive (a panic), or a unit that has ended. -/
def unitStep (u : ConcurrentUploader) (t : UploadUnit) (res : Option GoError) :
    Option (ConcurrentUploader × UploadUnit) :=
  match t.pc with
  | .acquire =>
    match u.concurrentLimiter.send true with
    | none => none
    | some c =>
      some ({ u with concurrentLimiter := c },
        { t with pc := .openFile, deferred := .decrementLimit :: t.deferred })
  | .openFile =>
    match res with
    | some err => some (u, { t with pc := .sendError err true })
    | none => some (u, { t with pc := .newOptions, deferred := .fileClose :: t.deferred })
  | .newOptions => some (u, afterCall t res true .newUpload)
  | .newUpload => some (u, afterCall t res true .upload)
  | .upload => some (u, afterCall t res false .mapWriteBegin)
  | .sendError err thenReturn =>
    some ({ u with Errors := u.Errors ++ [err] },
      { t with pc := if thenReturn then .returning else .wgDone })
  | .mapWriteBegin => some (u, { t with pc := .mapWriteEnd })
  | .mapWriteEnd =>
    some ({ u with uploadedFiles := u.uploadedFiles.assign t.filePath true },
      { t with pc := .sendCompleted })
  | .sendCompleted =>
    some ({ u with CompletedUploads := u.CompletedUploads ++ [t.filePath] },
      { t with pc := .wgDone })
  | .wgDone =>
    if u.waitingGroup - 1 < 0 then none
    else some ({ u with waitingGroup := u.waitingGroup - 1 }, { t with pc := .returning })
  | .returning =>
    match t.deferred with
    | [] => some (u, { t with pc := .exited })
    | .fileClose :: rest => some (u, { t with deferred := rest })
    | .decrementLimit :: rest =>
      match decrementLimit u with
      | none => none
      | some u' => some (u', { t with deferred := rest })
  | .exited => none

/-- The errors returned to one unit by the four calls it makes. -/
structure CallResults where
  osOpen : Option GoError
  newUploadOptionsFromFile : Option GoError
  newUpload : Option GoError
  upload : Option GoError
  deriving DecidableEq, Repr

/-- The result of the call made at a program point. -/
def CallResults.atPC (r : CallResults) : PC → Option GoError
  | .openFile => r.osOpen
  | .newOptions => r.newUploadOptionsFromFile
  | .newUpload => r.newUpload
  | .upload => r.upload
  | _ => none

/-- How a run of a unit on its own ends. -/
inductive RunResult where
  /-- The goroutine ended, leaving this dispatcher state. -/
  | finished (u : ConcurrentUploader)
  /-- The unit cannot take its next step in this state. -/
  | stuck (u : ConcurrentUploader) (t : UploadUnit)
  /-- The step budget ran out. -/
  | outOfFuel

/-- Runs a unit without interference until it ends, for at most `fuel` steps. -/
def runUnit (r : CallResults) : Nat → ConcurrentUploader → UploadUnit → RunResult
  | 0, u, t => if t.pc = .exited then .finished u else .outOfFuel
  | fuel + 1, u, t =>
    if t.pc = .exited then .finished u
    else
      match unitStep u t (r.atPC t.pc) with
      | none => .stuck u t
      | some (u', t') => runUnit r fuel u' t'

/-- The body of `uploadFile` has no loop: the longest path through it is twelve steps. -/
def uploadFileSteps : Nat := 12

/-- The goroutine `uploadFile(filePath)` run from start to end. -/
def uploadFile (r : CallResults) (u : ConcurrentUploader) (filePath : String) : RunResult :=
  runUnit r uploadFileSteps u (UploadUnit.spawn filePath)

/-! ## The drain barrier `WaitUploadsCompleted` -/

/-- The statement a caller of `WaitUploadsCompleted` executes next. -/
inductive WaitPC where
  /-- Line 156, `u.waiting = true`. -/
  | setFlag
  /-- Line 157, `u.waitingGroup.Wait()`. -/
  | wgWait
  /-- Line 158, `u.waiting = false`. -/
  | clearFlag
  /-- The call has returned. -/
  | returned
  deriving DecidableEq, Repr

/-- One atomic step of a caller of `WaitUploadsCompleted`; `none` when blocked in `Wait`
or after the return. -/
def waitStep (u : ConcurrentUploader) : WaitPC → Option (ConcurrentUploader × WaitPC)
  | .setFlag => some ({ u with waiting := true }, .wgWait)
  | .wgWait => if u.waitingGroup = 0 then some (u, .clearFlag) else none
  | .clearFlag => some ({ u with waiting := false }, .returned)
  | .returned => none

/-! ## The running program -/

/-- A dispatcher with its goroutines: the upload units started so far and the callers
inside `WaitUploadsCompleted`; `fatal` is the fatal error with which the runtime ended
the program, if it did. -/
structure System where
  u : ConcurrentUploader
  units : List UploadUnit
  waiters : List WaitPC
  fatal : Option String

/-- What can happen next in a running program. -/
inductive Action where
  /-- A call of `AddUploadedFiles`. -/
  | addUploadedFiles (files : List String)
  /-- A call of `EnqueueUpload`. -/
  | enqueueUpload (filePath : String)
  /-- The `i`-th upload unit takes a step, its call returning `res`. -/
  | unit (i : Nat) (res : Option GoError)
  /-- A goroutine enters `WaitUploadsCompleted`. -/
  | waitCall
  /-- The `i`-th caller of `WaitUploadsCompleted` takes a step. -/
  | waiter (i : Nat)

/-- The program right after `NewUploader` returned `u`. -/
def System.init (u : ConcurrentUploader) : System :=
  { u := u, units := [], waiters := [], fatal := none }

/-- Some upload unit is in the middle of the assignment of line 147. -/
def System.mapBusy (s : System) : Bool :=
  s.units.any (fun t => decide (t.pc = .mapWriteEnd))

/-- The program ended by the runtime with a fatal error. -/
def System.abort (s : System) (msg : String) : System :=
  { s with fatal := some msg }

/-- The fatal error with which the runtime ends the program when the action gets at the
map while a unit is in the middle of its assignment: the loop of `AddUploadedFiles` when
it has a file to store, the lookup of line 92 (not reached while draining), the start of
another unit's assignment. -/
def mapConflict (s : System) : Action → Option String
  | .addUploadedFiles files =>
    if s.mapBusy ∧ files ≠ [] then some "fatal error: concurrent map writes" else none
  | .enqueueUpload _ =>
    if s.mapBusy ∧ s.u.waiting = false then
      some "fatal error: concurrent map read and map write"
    else none
  | .unit i _ =>
    match s.units[i]? with
    | none => none
    | some t =>
      if s.mapBusy ∧ t.pc = .mapWriteBegin then some "fatal error: concurrent map writes"
      else none
  | .waitCall => none
  | .waiter _ => none

/-- One step of the program when the runtime does not intervene; `none` when the action
is not enabled. -/
def stepNoConflict (env : Env) (s : System) : Action → Option System
  | .addUploadedFiles files => some { s with u := AddUploadedFiles s.u files }
  | .enqueueUpload filePath =>
    let r := EnqueueUpload env s.u filePath
    match r.spawned with
    | none => some { s with u := r.u }
    | some p => some { s with u := r.u, units := s.units ++ [UploadUnit.spawn p] }
  | .unit i res =>
    match s.units[i]? with
    | none => none
    | some t =>
      match unitStep s.u t res with
      | none => none
      | some (u', t') => some { s with u := u', units := s.units.set i t' }
  | .waitCall => some { s with waiters := s.waiters ++ [.setFlag] }
  | .waiter i =>
    match s.waiters[i]? with
    | none => none
    | some pc =>
      match waitStep s.u pc with
      | none => none
      | some (u', pc') => some { s with u := u', waiters := s.waiters.set i pc' }

/-- One step of the program; `none` when the action is not enabled.  Nothing happens any
more once the runtime has ended the program. -/
def step (env : Env) (s : System) (a : Action) : Option System :=
  if s.fatal.isSome then none
  else
    match mapConflict s a with
    | some msg => some (s.abort msg)
    | none => stepNoConflict env s a

/-- A sequence of steps. -/
def exec (env : Env) : System → List Action → Option System
  | s, [] => some s
  | s, a :: rest =>
    match step env s a with
    | none => none
    | some s' => exec env s' rest

/-- The states a dispatcher built with limit `n` can be in. -/
def Reachable (env : Env) (credentials : CookieCredentials) (albumId : String) (n : Int)
    (s : System) : Prop :=
  ∃ u acts, NewUploader env credentials albumId n = .ok u ∧
    exec env (System.init u) acts = some s

/-- The number of upload units that hold a permit: they passed the send of line 117 and
their deferred `decrementLimit` has not run yet. -/
def inFlight (s : System) : Nat :=
  s.units.countP (fun t => decide (Deferred.decrementLimit ∈ t.deferred))

/-! ## Sample inputs -/

/-- A Unix environment with working directory `/home/user`: a path is absolute when it
starts with a slash, `Abs` puts the working directory in front of a plain relative name,
and every file but `notes.txt` is a picture.  The runtime is that of 64-bit Linux, where
a channel buffer has to fit in `2^48` bytes together with the channel header of 96
bytes. -/
def demoEnv : Env where
  isAbs p :=
    match p.data with
    | '/' :: _ => true
    | _ => false
  abs p := .ok ("/home/user/" ++ p)
  IsImageOrVideo p := if p = "/home/user/notes.txt" then .ok false else .ok true
  maxChanSize := 2 ^ 48 - 96

/-- Some credentials. -/
def demoCredentials : CookieCredentials :=
  { Client := 1, PersistentParameters := 2, RuntimeParameters := 3 }

/-- The dispatcher returned by `NewUploader(demoCredentials, "", 2)`. -/
def demoUploader : ConcurrentUploader :=
  { credentials := demoCredentials
    albumId := ""
    concurrentLimiter := { cap := 2, buf := [] }
    uploadedFiles := StringSet.empty
    waitingGroup := 0
    waiting := false
    CompletedUploads := []
    IgnoredUploads := []
    Errors := [] }

/-! ## Auxiliary notions for the proofs and further sample inputs -/

/-- The limiter after a unit took a permit and gave one back. -/
def BoolChan.cycled (c : BoolChan) : BoolChan :=
  { c with buf := (c.buf ++ [true]).tail }

/-- The dispatcher after a unit that reported `e` and left through an early `return`. -/
def earlyExit (u : ConcurrentUploader) (e : GoError) : ConcurrentUploader :=
  { u with concurrentLimiter := u.concurrentLimiter.cycled, Errors := u.Errors ++ [e] }

/-- The number of deferred `decrementLimit` calls a unit still has to run. -/
def permits (t : UploadUnit) : Nat :=
  t.deferred.count Deferred.decrementLimit

/-- The local invariant of a unit: at most one `decrementLimit` is pending, and none before
the permit is taken or after the goroutine ended. -/
def UnitOK (t : UploadUnit) : Prop :=
  permits t ≤ 1 ∧ (t.pc = .acquire → t.deferred = []) ∧ (t.pc = .exited → t.deferred = [])

/-- The invariant of a program whose limiter was made with capacity `n`. -/
def LimiterInv (n : Nat) (s : System) : Prop :=
  s.u.concurrentLimiter.cap = n ∧
  s.u.concurrentLimiter.buf.length ≤ n ∧
  (s.units.map permits).sum = s.u.concurrentLimiter.buf.length ∧
  ∀ t ∈ s.units, UnitOK t

/-- Three uploads are enqueued with limit two, and the first two units take their
permits. -/
def demoRun : List Action :=
  [.enqueueUpload "a.jpg", .enqueueUpload "b.jpg", .enqueueUpload "c.jpg",
    .unit 0 none, .unit 1 none]

/-- The state reached by `demoRun`. -/
def demoSystem : System :=
  { u := { demoUploader with
      concurrentLimiter := { cap := 2, buf := [true, true] }
      waitingGroup := 3 }
    units :=
      [{ filePath := "/home/user/a.jpg", pc := .openFile, deferred := [.decrementLimit] },
       { filePath := "/home/user/b.jpg", pc := .openFile, deferred := [.decrementLimit] },
       { filePath := "/home/user/c.jpg", pc := .acquire, deferred := [] }]
    waiters := []
    fatal := none }

/-- The program of `demoSystem` with `/home/user/z.jpg` seeded as uploaded. -/
def demoSeeded : System :=
  { demoSystem with u := AddUploadedFiles demoSystem.u ["/home/user/z.jpg"] }

/-- All four calls succeed. -/
def CallResults.allOk : CallResults :=
  { osOpen := none, newUploadOptionsFromFile := none, newUpload := none, upload := none }

/-- The call `os.Open` fails with `err`. -/
def CallResults.openFails (err : GoError) : CallResults :=
  { osOpen := some err, newUploadOptionsFromFile := none, newUpload := none, upload := none }

/-- The call `api.NewUpload` fails with `err`. -/
def CallResults.newUploadFails (err : GoError) : CallResults :=
  { osOpen := none, newUploadOptionsFromFile := none, newUpload := some err, upload := none }

/-- The dispatcher after `EnqueueUpload("/home/user/photo.jpg")` on a fresh dispatcher. -/
def demoEnqueued : ConcurrentUploader :=
  (EnqueueUpload demoEnv demoUploader "/home/user/photo.jpg").u

/-- In the run `acts` from `s0`, action number `k` is a step of the `i`-th caller of
`WaitUploadsCompleted`: it executes the statement `pc` in state `sk` and leads to `sk'`. -/
def WaiterStepAt (env : Env) (s0 : System) (acts : List Action) (k i : Nat) (pc : WaitPC)
    (sk sk' : System) : Prop :=
  exec env s0 (acts.take k) = some sk ∧ acts[k]? = some (.waiter i) ∧
    sk.waiters[i]? = some pc ∧ step env sk (.waiter i) = some sk'

/-- In the run, the `i`-th caller of `WaitUploadsCompleted` has executed `u.waiting = true`,
and the flag was set right after. -/
def HasSetFlag (env : Env) (s0 : System) (acts : List Action) (i a : Nat) : Prop :=
  ∃ sa sa', WaiterStepAt env s0 acts a i .setFlag sa sa' ∧ sa'.u.waiting = true

/-- In the run, the `i`-th caller has got past `u.waitingGroup.Wait()`, at a moment when
the counter was zero. -/
def HasPassedWait (env : Env) (s0 : System) (acts : List Action) (i b : Nat) : Prop :=
  ∃ sb sb', WaiterStepAt env s0 acts b i .wgWait sb sb' ∧ sb.u.waitingGroup = 0

/-- In the run, the `i`-th caller has executed `u.waiting = false`, and the flag was unset
right after. -/
def HasClearedFlag (env : Env) (s0 : System) (acts : List Action) (i c : Nat) : Prop :=
  ∃ sc sc', WaiterStepAt env s0 acts c i .clearFlag sc sc' ∧ sc'.u.waiting = false

/-- Two uploads are enqueued with limit two; the first unit goes as far as the start of
the assignment of line 147, every call succeeding, then the second unit does the same. -/
def demoRaceRun : List Action :=
  [.enqueueUpload "/home/user/a.jpg", .enqueueUpload "/home/user/b.jpg"] ++
    List.replicate 6 (.unit 0 none) ++ List.replicate 6 (.unit 1 none)

/-- The state reached by `demoRaceRun`. -/
def demoRaced : System :=
  { u := { demoUploader with
      concurrentLimiter := { cap := 2, buf := [true, true] }
      waitingGroup := 2 }
    units :=
      [{ filePath := "/home/user/a.jpg", pc := .mapWriteEnd,
         deferred := [.fileClose, .decrementLimit] },
       { filePath := "/home/user/b.jpg", pc := .mapWriteBegin,
         deferred := [.fileClose, .decrementLimit] }]
    waiters := []
    fatal := some "fatal error: concurrent map writes" }

/-- A dispatcher inside `WaitUploadsCompleted`. -/
def demoDraining : ConcurrentUploader :=
  { demoEnqueued with waiting := true }

/-- One upload is enqueued, a caller enters `WaitUploadsCompleted` and sets the flag, the
unit runs through its twelve steps, then the caller gets past `Wait` and clears the flag. -/
def demoDrainRun : List Action :=
  [.enqueueUpload "/home/user/photo.jpg", .waitCall, .waiter 0] ++
    List.replicate 12 (.unit 0 none) ++ [.waiter 0, .waiter 0]

/-- The state reached by `demoDrainRun`. -/
def demoDrained : System :=
  { u := { demoUploader with
      uploadedFiles := StringSet.empty.assign "/home/user/photo.jpg" true
      CompletedUploads := ["/home/user/photo.jpg"] }
    units := [{ filePath := "/home/user/photo.jpg", pc := .exited, deferred := [] }]
    waiters := [.returned]
    fatal := none }

/-! # Theorems -/

/-! ## Construction -/

/-- C5, as the code has it: `NewUploader` returns an error exactly for a limit `n <= 0`;
for every `n > 0` that `make(chan bool, n)` accepts as a buffer size it returns a
dispatcher with an empty deduplication set, a limiter of capacity `n` holding no permit,
the draining flag unset, the counter at zero, nothing sent on the outcome channels, and
the credentials and album id it was given. -/
theorem NewUploader_spec (env : Env) (credentials : CookieCredentials) (albumId : String)
    (n : Int) :
    ((∃ e, NewUploader env credentials albumId n = .error e) ↔ n ≤ 0) ∧
    (0 < n → n ≤ (env.maxChanSize : Int) →
      ∃ u, NewUploader env credentials albumId n = .ok u ∧
        (∀ p, u.uploadedFiles.has p = false) ∧
        (u.concurrentLimiter.cap : Int) = n ∧ u.concurrentLimiter.buf = [] ∧
        u.waiting = false ∧ u.waitingGroup = 0 ∧
        u.CompletedUploads = [] ∧ u.IgnoredUploads = [] ∧ u.Errors = [] ∧
        u.credentials = credentials ∧ u.albumId = albumId) := by
  constructor
  · constructor
    · rintro ⟨e, he⟩
      by_contra hn
      unfold NewUploader at he
      rw [if_neg hn] at he
      split at he <;> cases he
    · intro hn
      exact ⟨_, if_pos hn⟩
  · intro hn hmax
    have hn' : ¬ n ≤ 0 := not_le.mpr hn
    have hmake : BoolChan.make env.maxChanSize n = some { cap := n.toNat, buf := [] } := by
      unfold BoolChan.make
      rw [if_neg]
      omega
    refine ⟨_, by unfold NewUploader; rw [if_neg hn', hmake], ?_⟩
    simp [StringSet.empty, StringSet.has, Int.toNat_of_nonneg hn.le]

/-- C5 amended, at `n = 2` and, for the error, at `n = 0`. -/
theorem NewUploader_spec_witness :
    (0 : Int) < 2 ∧ (2 : Int) ≤ (demoEnv.maxChanSize : Int) ∧
    (∃ u, NewUploader demoEnv demoCredentials "" 2 = .ok u ∧
      (∀ p, u.uploadedFiles.has p = false) ∧
      (u.concurrentLimiter.cap : Int) = 2 ∧ u.concurrentLimiter.buf = [] ∧
      u.waiting = false ∧ u.waitingGroup = 0 ∧
      u.CompletedUploads = [] ∧ u.IgnoredUploads = [] ∧ u.Errors = [] ∧
      u.credentials = demoCredentials ∧ u.albumId = "") ∧
    ∃ e, NewUploader demoEnv demoCredentials "" 0 = .error e :=
  ⟨by decide, by decide,
    (NewUploader_spec demoEnv demoCredentials "" 2).2 (by decide) (by decide),
    (NewUploader_spec demoEnv demoCredentials "" 0).1.mpr (by decide)⟩

/-- C5 as stated fails for a large limit: for `n = 9223372036854775807`, the largest
`int`, which is positive, `NewUploader` gets neither a dispatcher nor an error back: the
`make(chan bool, n)` of line 56 panics. -/
theorem NewUploader_MaxInt64_panics :
    (0 : Int) < 9223372036854775807 ∧
    NewUploader demoEnv demoCredentials "" 9223372036854775807 =
      .panic "makechan: size out of range" ∧
    (¬ ∃ u, NewUploader demoEnv demoCredentials "" 9223372036854775807 = .ok u) ∧
    ¬ ∃ e, NewUploader demoEnv demoCredentials "" 9223372036854775807 = .error e := by
  have h : NewUploader demoEnv demoCredentials "" 9223372036854775807 =
      .panic "makechan: size out of range" := by
    unfold NewUploader
    rw [if_neg (by decide)]
    have hmake : BoolChan.make demoEnv.maxChanSize 9223372036854775807 = none := by
      unfold BoolChan.make
      rw [if_pos]
      right
      simp [demoEnv]
    rw [hmake]
  refine ⟨by decide, h, ?_, ?_⟩
  · rintro ⟨u, hu⟩
    rw [h] at hu
    cases hu
  · rintro ⟨e, he⟩
    rw [h] at he
    cases he

/-! ## Facts about the limiter and the deduplication set -/

theorem BoolChan.send_free (c : BoolChan) (v : Bool) (h : c.buf.length < c.cap) :
    c.send v = some { c with buf := c.buf ++ [v] } := by
  simp [BoolChan.send, h]

theorem BoolChan.send_full (c : BoolChan) (v : Bool) (h : ¬ c.buf.length < c.cap) :
    c.send v = none := by
  simp [BoolChan.send, h]

theorem BoolChan.recv_append (c : BoolChan) (v : Bool) :
    ({ c with buf := c.buf ++ [v] } : BoolChan).recv =
      some ((c.buf ++ [v]).head (by simp), { c with buf := (c.buf ++ [v]).tail }) := by
  obtain ⟨cap, buf⟩ := c
  cases buf <;> simp [BoolChan.recv]

theorem BoolChan.cycled_length (c : BoolChan) :
    c.cycled.buf.length = c.buf.length ∧ c.cycled.cap = c.cap := by
  simp [BoolChan.cycled]

theorem StringSet.has_assign (m : StringSet) (key : String) (v : Bool) (q : String) :
    (m.assign key v).has q = (decide (q = key) || m.has q) := by
  by_cases h : q = key <;> simp [StringSet.has, StringSet.assign, h]

theorem AddUploadedFiles_cons (u : ConcurrentUploader) (name : String) (files : List String) :
    AddUploadedFiles u (name :: files) =
      AddUploadedFiles { u with uploadedFiles := u.uploadedFiles.assign name true } files := by
  simp [AddUploadedFiles]

theorem AddUploadedFiles_lookup (u : ConcurrentUploader) (files : List String) (q : String) :
    (AddUploadedFiles u files).uploadedFiles q =
      if q ∈ files then some true else u.uploadedFiles q := by
  induction files generalizing u with
  | nil => simp [AddUploadedFiles]
  | cons name rest ih =>
    rw [AddUploadedFiles_cons, ih]
    by_cases h1 : q ∈ rest
    · simp [h1]
    · by_cases h2 : q = name <;> simp [h1, h2, StringSet.assign]

theorem AddUploadedFiles_frame (u : ConcurrentUploader) (files : List String) :
    AddUploadedFiles u files =
      { u with uploadedFiles := (AddUploadedFiles u files).uploadedFiles } := by
  induction files generalizing u with
  | nil => simp [AddUploadedFiles]
  | cons name rest ih =>
    rw [AddUploadedFiles_cons, ih]

theorem AddUploadedFiles_has (u : ConcurrentUploader) (files : List String) (q : String) :
    (AddUploadedFiles u files).uploadedFiles.has q = (decide (q ∈ files) || u.uploadedFiles.has q) := by
  simp only [StringSet.has, AddUploadedFiles_lookup]
  by_cases h : q ∈ files <;> simp [h]

/-! ## The effect of `EnqueueUpload` -/

theorem EnqueueUpload_uploadedFiles (env : Env) (u : ConcurrentUploader) (p : String) :
    (EnqueueUpload env u p).u.uploadedFiles = u.uploadedFiles ∧
    (EnqueueUpload env u p).u.concurrentLimiter = u.concurrentLimiter := by
  unfold EnqueueUpload
  split
  · simp
  · simp only
    split
    · simp
    · split <;> simp

/-! ## The effect of one step of a unit -/

theorem decrementLimit_frame (u u' : ConcurrentUploader) (h : decrementLimit u = some u') :
    u'.uploadedFiles = u.uploadedFiles ∧
    u' = { u with concurrentLimiter := u'.concurrentLimiter } := by
  unfold decrementLimit at h
  split at h
  · simp at h
  · simp only [Option.some.injEq] at h
    subst h
    exact ⟨rfl, rfl⟩

theorem unitStep_has_mono (u u' : ConcurrentUploader) (t t' : UploadUnit) (res : Option GoError)
    (q : String) (h : unitStep u t res = some (u', t')) (hq : u.uploadedFiles.has q = true) :
    u'.uploadedFiles.has q = true := by
  unfold unitStep at h
  split at h <;> (try split at h) <;> (try split at h) <;> simp at h <;>
    obtain ⟨rfl, -⟩ := h <;>
    first
      | simp [StringSet.has_assign, hq]
      | (rename_i hd
         rw [(decrementLimit_frame _ _ hd).1]
         exact hq)

theorem waitStep_uploadedFiles (u u' : ConcurrentUploader) (pc pc' : WaitPC)
    (h : waitStep u pc = some (u', pc')) :
    u'.uploadedFiles = u.uploadedFiles ∧ u'.concurrentLimiter = u.concurrentLimiter := by
  cases pc <;> simp [waitStep] at h
  · obtain ⟨rfl, _⟩ := h; simp
  · obtain ⟨_, rfl, _⟩ := h; simp
  · obtain ⟨rfl, _⟩ := h; simp

theorem step_inv (env : Env) (s s' : System) (a : Action) (h : step env s a = some s') :
    s.fatal = none ∧ ((∃ msg, s' = s.abort msg) ∨ stepNoConflict env s a = some s') := by
  unfold step at h
  split_ifs at h with hf
  refine ⟨by simpa using hf, ?_⟩
  split at h
  · simp only [Option.some.injEq] at h
    exact Or.inl ⟨_, h.symm⟩
  · exact Or.inr h

theorem stepNoConflict_has_mono (env : Env) (s s' : System) (a : Action) (q : String)
    (h : stepNoConflict env s a = some s') (hq : s.u.uploadedFiles.has q = true) :
    s'.u.uploadedFiles.has q = true := by
  cases a with
  | addUploadedFiles files =>
    simp only [stepNoConflict, Option.some.injEq] at h
    subst h
    simp [AddUploadedFiles_has, hq]
  | enqueueUpload p =>
    simp only [stepNoConflict] at h
    split at h <;>
    · simp only [Option.some.injEq] at h
      subst h
      simpa [(EnqueueUpload_uploadedFiles env s.u p).1] using hq
  | unit i res =>
    simp only [stepNoConflict] at h
    split at h
    · exact absurd h (by simp)
    · split at h
      · exact absurd h (by simp)
      · rename_i t _ u' t' hstep
        simp only [Option.some.injEq] at h
        subst h
        exact unitStep_has_mono _ _ _ _ _ q hstep hq
  | waitCall =>
    simp only [stepNoConflict, Option.some.injEq] at h
    subst h
    exact hq
  | waiter i =>
    simp only [stepNoConflict] at h
    split at h
    · exact absurd h (by simp)
    · split at h
      · exact absurd h (by simp)
      · rename_i pc _ u' pc' hstep
        simp only [Option.some.injEq] at h
        subst h
        simpa [(waitStep_uploadedFiles _ _ _ _ hstep).1] using hq

theorem step_has_mono (env : Env) (s s' : System) (a : Action) (q : String)
    (h : step env s a = some s') (hq : s.u.uploadedFiles.has q = true) :
    s'.u.uploadedFiles.has q = true := by
  rcases (step_inv env s s' a h).2 with ⟨msg, rfl⟩ | h'
  · exact hq
  · exact stepNoConflict_has_mono env s s' a q h' hq

theorem exec_has_mono (env : Env) (acts : List Action) (s s' : System) (q : String)
    (h : exec env s acts = some s') (hq : s.u.uploadedFiles.has q = true) :
    s'.u.uploadedFiles.has q = true := by
  induction acts generalizing s with
  | nil =>
    simp only [exec, Option.some.injEq] at h
    subst h
    exact hq
  | cons a rest ih =>
    simp only [exec] at h
    split at h
    · exact absurd h (by simp)
    · rename_i s1 hs1
      exact ih s1 h (step_has_mono env s s1 a q hs1 hq)

/-! ## Runs of one upload unit -/

theorem uploadFile_blocked (r : CallResults) (u : ConcurrentUploader) (p : String)
    (hfull : ¬ u.concurrentLimiter.buf.length < u.concurrentLimiter.cap) :
    uploadFile r u p = .stuck u (UploadUnit.spawn p) := by
  simp [uploadFile, runUnit, uploadFileSteps, unitStep, UploadUnit.spawn,
    BoolChan.send_full _ _ hfull]

theorem uploadFile_open_fails (r : CallResults) (u : ConcurrentUploader) (p : String)
    (e : GoError) (hfree : u.concurrentLimiter.buf.length < u.concurrentLimiter.cap)
    (h1 : r.osOpen = some e) :
    uploadFile r u p = .finished (earlyExit u e) := by
  simp [uploadFile, runUnit, uploadFileSteps, unitStep, UploadUnit.spawn, CallResults.atPC,
    BoolChan.send_free _ _ hfree, decrementLimit, BoolChan.recv_append, BoolChan.cycled, earlyExit, h1]

theorem uploadFile_options_fail (r : CallResults) (u : ConcurrentUploader) (p : String)
    (e : GoError) (hfree : u.concurrentLimiter.buf.length < u.concurrentLimiter.cap)
    (h1 : r.osOpen = none) (h2 : r.newUploadOptionsFromFile = some e) :
    uploadFile r u p = .finished (earlyExit u e) := by
  simp [uploadFile, runUnit, uploadFileSteps, unitStep, UploadUnit.spawn, CallResults.atPC,
    afterCall, BoolChan.send_free _ _ hfree, decrementLimit, BoolChan.recv_append, BoolChan.cycled, earlyExit,
    h1, h2]

theorem uploadFile_newUpload_fails (r : CallResults) (u : ConcurrentUploader) (p : String)
    (e : GoError) (hfree : u.concurrentLimiter.buf.length < u.concurrentLimiter.cap)
    (h1 : r.osOpen = none) (h2 : r.newUploadOptionsFromFile = none)
    (h3 : r.newUpload = some e) :
    uploadFile r u p = .finished (earlyExit u e) := by
  simp [uploadFile, runUnit, uploadFileSteps, unitStep, UploadUnit.spawn, CallResults.atPC,
    afterCall, BoolChan.send_free _ _ hfree, decrementLimit, BoolChan.recv_append, BoolChan.cycled, earlyExit,
    h1, h2, h3]

theorem uploadFile_transfer_fails (r : CallResults) (u : ConcurrentUploader) (p : String)
    (e : GoError) (hfree : u.concurrentLimiter.buf.length < u.concurrentLimiter.cap)
    (hwg : 0 < u.waitingGroup)
    (h1 : r.osOpen = none) (h2 : r.newUploadOptionsFromFile = none)
    (h3 : r.newUpload = none) (h4 : r.upload = some e) :
    uploadFile r u p = .finished
      { u with
        concurrentLimiter := u.concurrentLimiter.cycled
        Errors := u.Errors ++ [e]
        waitingGroup := u.waitingGroup - 1 } := by
  have hwg' : ¬ u.waitingGroup - 1 < 0 := by omega
  simp [uploadFile, runUnit, uploadFileSteps, unitStep, UploadUnit.spawn, CallResults.atPC,
    afterCall, BoolChan.send_free _ _ hfree, decrementLimit, BoolChan.recv_append, BoolChan.cycled,
    h1, h2, h3, h4, hwg']

theorem uploadFile_succeeds (r : CallResults) (u : ConcurrentUploader) (p : String)
    (hfree : u.concurrentLimiter.buf.length < u.concurrentLimiter.cap)
    (hwg : 0 < u.waitingGroup)
    (h1 : r.osOpen = none) (h2 : r.newUploadOptionsFromFile = none)
    (h3 : r.newUpload = none) (h4 : r.upload = none) :
    uploadFile r u p = .finished
      { u with
        concurrentLimiter := u.concurrentLimiter.cycled
        uploadedFiles := u.uploadedFiles.assign p true
        CompletedUploads := u.CompletedUploads ++ [p]
        waitingGroup := u.waitingGroup - 1 } := by
  have hwg' : ¬ u.waitingGroup - 1 < 0 := by omega
  simp [uploadFile, runUnit, uploadFileSteps, unitStep, UploadUnit.spawn, CallResults.atPC,
    afterCall, BoolChan.send_free _ _ hfree, decrementLimit, BoolChan.recv_append, BoolChan.cycled,
    h1, h2, h3, h4, hwg']

theorem uploadFile_done_panics (r : CallResults) (u : ConcurrentUploader) (p : String)
    (hfree : u.concurrentLimiter.buf.length < u.concurrentLimiter.cap)
    (hwg : ¬ 0 < u.waitingGroup)
    (h1 : r.osOpen = none) (h2 : r.newUploadOptionsFromFile = none)
    (h3 : r.newUpload = none) :
    ∃ u' t', uploadFile r u p = .stuck u' t' := by
  have hwg' : u.waitingGroup - 1 < 0 := by omega
  cases h4 : r.upload <;>
  simp [uploadFile, runUnit, uploadFileSteps, unitStep, UploadUnit.spawn, CallResults.atPC,
    afterCall, BoolChan.send_free _ _ hfree, decrementLimit, BoolChan.recv_append, BoolChan.cycled,
    h1, h2, h3, h4, hwg']

/-- Every finished run of a unit leaves the limiter as `cycled`. -/
theorem uploadFile_finished_limiter (r : CallResults) (u u' : ConcurrentUploader) (p : String)
    (h : uploadFile r u p = .finished u') :
    u'.concurrentLimiter = u.concurrentLimiter.cycled := by
  by_cases hfree : u.concurrentLimiter.buf.length < u.concurrentLimiter.cap
  · cases h1 : r.osOpen with
    | some e => rw [uploadFile_open_fails r u p e hfree h1] at h; cases h; rfl
    | none =>
      cases h2 : r.newUploadOptionsFromFile with
      | some e => rw [uploadFile_options_fail r u p e hfree h1 h2] at h; cases h; rfl
      | none =>
        cases h3 : r.newUpload with
        | some e => rw [uploadFile_newUpload_fails r u p e hfree h1 h2 h3] at h; cases h; rfl
        | none =>
          by_cases hwg : 0 < u.waitingGroup
          · cases h4 : r.upload with
            | some e =>
              rw [uploadFile_transfer_fails r u p e hfree hwg h1 h2 h3 h4] at h; cases h; rfl
            | none => rw [uploadFile_succeeds r u p hfree hwg h1 h2 h3 h4] at h; cases h; rfl
          · obtain ⟨u2, t2, hs⟩ := uploadFile_done_panics r u p hfree hwg h1 h2 h3
            rw [hs] at h; cases h
  · rw [uploadFile_blocked r u p hfree] at h; cases h

/-- Twelve steps are enough for every run of a unit: it ends or is stuck before. -/
theorem uploadFile_fuel_suffices (r : CallResults) (u : ConcurrentUploader) (p : String) :
    uploadFile r u p ≠ .outOfFuel := by
  intro h
  by_cases hfree : u.concurrentLimiter.buf.length < u.concurrentLimiter.cap
  · cases h1 : r.osOpen with
    | some e => rw [uploadFile_open_fails r u p e hfree h1] at h; cases h
    | none =>
      cases h2 : r.newUploadOptionsFromFile with
      | some e => rw [uploadFile_options_fail r u p e hfree h1 h2] at h; cases h
      | none =>
        cases h3 : r.newUpload with
        | some e => rw [uploadFile_newUpload_fails r u p e hfree h1 h2 h3] at h; cases h
        | none =>
          by_cases hwg : 0 < u.waitingGroup
          · cases h4 : r.upload with
            | some e =>
              rw [uploadFile_transfer_fails r u p e hfree hwg h1 h2 h3 h4] at h; cases h
            | none => rw [uploadFile_succeeds r u p hfree hwg h1 h2 h3 h4] at h; cases h
          · obtain ⟨u2, t2, hs⟩ := uploadFile_done_panics r u p hfree hwg h1 h2 h3
            rw [hs] at h; cases h
  · rw [uploadFile_blocked r u p hfree] at h; cases h

/-- A unit that finds a free permit and a positive counter runs to its end. -/
theorem uploadFile_finishes (r : CallResults) (u : ConcurrentUploader) (p : String)
    (hfree : u.concurrentLimiter.buf.length < u.concurrentLimiter.cap)
    (hwg : 0 < u.waitingGroup) :
    ∃ u', uploadFile r u p = .finished u' := by
  cases h1 : r.osOpen with
  | some e => exact ⟨_, uploadFile_open_fails r u p e hfree h1⟩
  | none =>
    cases h2 : r.newUploadOptionsFromFile with
    | some e => exact ⟨_, uploadFile_options_fail r u p e hfree h1 h2⟩
    | none =>
      cases h3 : r.newUpload with
      | some e => exact ⟨_, uploadFile_newUpload_fails r u p e hfree h1 h2 h3⟩
      | none =>
        cases h4 : r.upload with
        | some e => exact ⟨_, uploadFile_transfer_fails r u p e hfree hwg h1 h2 h3 h4⟩
        | none => exact ⟨_, uploadFile_succeeds r u p hfree hwg h1 h2 h3 h4⟩

/-! ## The permits held in a running program -/

theorem sum_map_set {α : Type} (f : α → Nat) (l : List α) (i : Nat) (t t' : α)
    (h : l[i]? = some t) :
    ((l.set i t').map f).sum + f t = (l.map f).sum + f t' := by
  induction l generalizing i with
  | nil => simp at h
  | cons x xs ih =>
    cases i with
    | zero =>
      simp only [List.getElem?_cons_zero, Option.some.injEq] at h
      subst h
      simp only [List.set_cons_zero, List.map_cons, List.sum_cons]
      omega
    | succ j =>
      simp only [List.getElem?_cons_succ] at h
      have := ih j h
      simp only [List.set_cons_succ, List.map_cons, List.sum_cons]
      omega

theorem countP_eq_sum_permits (l : List UploadUnit) (h : ∀ t ∈ l, permits t ≤ 1) :
    l.countP (fun t => decide (Deferred.decrementLimit ∈ t.deferred)) = (l.map permits).sum := by
  induction l with
  | nil => simp
  | cons x xs ih =>
    have hx : permits x ≤ 1 := h x (List.mem_cons_self _ _)
    have hxs := ih (fun t ht => h t (List.mem_cons_of_mem _ ht))
    rw [List.countP_cons, hxs, List.map_cons, List.sum_cons]
    by_cases hm : Deferred.decrementLimit ∈ x.deferred
    · have hpos : 0 < permits x := List.count_pos_iff.mpr hm
      simp only [hm, decide_True, if_true]
      omega
    · have hzero : permits x = 0 := List.count_eq_zero.mpr hm
      simp only [hm, decide_False]
      simp [hzero]

theorem unitStep_limiter (u u' : ConcurrentUploader) (t t' : UploadUnit) (res : Option GoError)
    (h : unitStep u t res = some (u', t')) (hok : UnitOK t) :
    u'.concurrentLimiter.cap = u.concurrentLimiter.cap ∧
    u'.concurrentLimiter.buf.length + permits t = u.concurrentLimiter.buf.length + permits t' ∧
    (u.concurrentLimiter.buf.length ≤ u.concurrentLimiter.cap →
      u'.concurrentLimiter.buf.length ≤ u.concurrentLimiter.cap) ∧
    UnitOK t' := by
  obtain ⟨fp, pc, ds⟩ := t
  obtain ⟨h1, h2, h3⟩ := hok
  simp only [permits] at h1 h2 h3 ⊢
  cases pc with
  | acquire =>
    have hds : ds = [] := h2 rfl
    subst hds
    simp only [unitStep, BoolChan.send] at h
    split at h
    · simp at h
    · rename_i c hc
      split_ifs at hc with hlt
      simp only [Option.some.injEq] at hc h
      obtain ⟨rfl, rfl⟩ := h
      subst hc
      simp [UnitOK, permits]
      omega
  | openFile =>
    cases res <;> simp only [unitStep, Option.some.injEq, Prod.mk.injEq] at h <;>
      obtain ⟨rfl, rfl⟩ := h <;> simp [UnitOK, permits, h1]
  | newOptions =>
    cases res <;> simp only [unitStep, afterCall, Option.some.injEq, Prod.mk.injEq] at h <;>
      obtain ⟨rfl, rfl⟩ := h <;> simp [UnitOK, permits, h1]
  | newUpload =>
    cases res <;> simp only [unitStep, afterCall, Option.some.injEq, Prod.mk.injEq] at h <;>
      obtain ⟨rfl, rfl⟩ := h <;> simp [UnitOK, permits, h1]
  | upload =>
    cases res <;> simp only [unitStep, afterCall, Option.some.injEq, Prod.mk.injEq] at h <;>
      obtain ⟨rfl, rfl⟩ := h <;> simp [UnitOK, permits, h1]
  | sendError err thenReturn =>
    simp only [unitStep, Option.some.injEq, Prod.mk.injEq] at h
    obtain ⟨rfl, rfl⟩ := h
    cases thenReturn <;> simp [UnitOK, permits, h1]
  | mapWriteBegin =>
    simp only [unitStep, Option.some.injEq, Prod.mk.injEq] at h
    obtain ⟨rfl, rfl⟩ := h
    simp [UnitOK, permits, h1]
  | mapWriteEnd =>
    simp only [unitStep, Option.some.injEq, Prod.mk.injEq] at h
    obtain ⟨rfl, rfl⟩ := h
    simp [UnitOK, permits, h1]
  | sendCompleted =>
    simp only [unitStep, Option.some.injEq, Prod.mk.injEq] at h
    obtain ⟨rfl, rfl⟩ := h
    simp [UnitOK, permits, h1]
  | wgDone =>
    simp only [unitStep] at h
    split_ifs at h
    simp only [Option.some.injEq, Prod.mk.injEq] at h
    obtain ⟨rfl, rfl⟩ := h
    simp [UnitOK, permits, h1]
  | returning =>
    cases ds with
    | nil =>
      simp only [unitStep, Option.some.injEq, Prod.mk.injEq] at h
      obtain ⟨rfl, rfl⟩ := h
      simp [UnitOK, permits]
    | cons d rest =>
      cases d with
      | fileClose =>
        simp only [unitStep, Option.some.injEq, Prod.mk.injEq] at h
        obtain ⟨rfl, rfl⟩ := h
        simp only [List.count_cons] at h1
        simp [UnitOK, permits]
        simpa using h1
      | decrementLimit =>
        simp only [List.count_cons_self] at h1
        cases hbuf : u.concurrentLimiter.buf with
        | nil => simp [unitStep, decrementLimit, BoolChan.recv, hbuf] at h
        | cons v rest' =>
          simp only [unitStep, decrementLimit, BoolChan.recv, hbuf, Option.some.injEq,
            Prod.mk.injEq] at h
          obtain ⟨rfl, rfl⟩ := h
          simp [UnitOK, permits]
          omega
  | exited => simp [unitStep] at h

theorem AddUploadedFiles_limiter (u : ConcurrentUploader) (files : List String) :
    (AddUploadedFiles u files).concurrentLimiter = u.concurrentLimiter := by
  rw [AddUploadedFiles_frame]

theorem stepNoConflict_limiterInv (env : Env) (n : Nat) (s s' : System) (a : Action)
    (h : stepNoConflict env s a = some s') (hinv : LimiterInv n s) : LimiterInv n s' := by
  obtain ⟨hcap, hroom, hsum, hunits⟩ := hinv
  cases a with
  | addUploadedFiles files =>
    simp only [stepNoConflict, Option.some.injEq] at h
    subst h
    exact ⟨by simpa [AddUploadedFiles_limiter] using hcap,
      by simpa [AddUploadedFiles_limiter] using hroom,
      by simpa [AddUploadedFiles_limiter] using hsum, hunits⟩
  | enqueueUpload p =>
    have hlim := (EnqueueUpload_uploadedFiles env s.u p).2
    simp only [stepNoConflict] at h
    split at h
    · simp only [Option.some.injEq] at h
      subst h
      exact ⟨by simpa [hlim] using hcap, by simpa [hlim] using hroom,
        by simpa [hlim] using hsum, hunits⟩
    · simp only [Option.some.injEq] at h
      subst h
      refine ⟨by simpa [hlim] using hcap, by simpa [hlim] using hroom, ?_, ?_⟩
      · simpa [hlim, permits, UploadUnit.spawn] using hsum
      · intro t ht
        simp only [List.mem_append, List.mem_singleton] at ht
        rcases ht with ht | rfl
        · exact hunits t ht
        · simp [UnitOK, permits, UploadUnit.spawn]
  | unit i res =>
    simp only [stepNoConflict] at h
    split at h
    · exact absurd h (by simp)
    · rename_i t hget
      split at h
      · exact absurd h (by simp)
      · rename_i u' t' hstep
        simp only [Option.some.injEq] at h
        subst h
        have hmem : t ∈ s.units := List.mem_iff_getElem?.mpr ⟨i, hget⟩
        obtain ⟨k1, k2, k3, k4⟩ := unitStep_limiter _ _ _ _ _ hstep (hunits t hmem)
        have hset := sum_map_set permits s.units i t t' hget
        refine ⟨by simpa [k1] using hcap, ?_, ?_, ?_⟩
        · have := k3 (by omega)
          simp only
          omega
        · simp only
          omega
        · intro x hx
          rcases List.mem_or_eq_of_mem_set hx with hx | rfl
          · exact hunits x hx
          · exact k4
  | waitCall =>
    simp only [stepNoConflict, Option.some.injEq] at h
    subst h
    exact ⟨hcap, hroom, hsum, hunits⟩
  | waiter i =>
    simp only [stepNoConflict] at h
    split at h
    · exact absurd h (by simp)
    · split at h
      · exact absurd h (by simp)
      · rename_i pc _ u' pc' hstep
        have hlim := (waitStep_uploadedFiles _ _ _ _ hstep).2
        simp only [Option.some.injEq] at h
        subst h
        exact ⟨by simpa [hlim] using hcap, by simpa [hlim] using hroom,
          by simpa [hlim] using hsum, hunits⟩

theorem step_limiterInv (env : Env) (n : Nat) (s s' : System) (a : Action)
    (h : step env s a = some s') (hinv : LimiterInv n s) : LimiterInv n s' := by
  rcases (step_inv env s s' a h).2 with ⟨msg, rfl⟩ | h'
  · exact hinv
  · exact stepNoConflict_limiterInv env n s s' a h' hinv

theorem exec_limiterInv (env : Env) (n : Nat) (acts : List Action) (s s' : System)
    (h : exec env s acts = some s') (hinv : LimiterInv n s) : LimiterInv n s' := by
  induction acts generalizing s with
  | nil =>
    simp only [exec, Option.some.injEq] at h
    subst h
    exact hinv
  | cons a rest ih =>
    simp only [exec] at h
    split at h
    · exact absurd h (by simp)
    · rename_i s1 hs1
      exact ih s1 h (step_limiterInv env n s s1 a hs1 hinv)

theorem NewUploader_ok (env : Env) (credentials : CookieCredentials) (albumId : String)
    (n : Int) (u : ConcurrentUploader) (h : NewUploader env credentials albumId n = .ok u) :
    0 < n ∧ u.concurrentLimiter = { cap := n.toNat, buf := [] } ∧ u.waitingGroup = 0 ∧
      u.waiting = false ∧ u.uploadedFiles = StringSet.empty := by
  unfold NewUploader at h
  split_ifs at h with hn
  split at h
  · cases h
  · rename_i limiter hmake
    unfold BoolChan.make at hmake
    split_ifs at hmake
    simp only [Option.some.injEq] at hmake
    simp only [NewUploaderResult.ok.injEq] at h
    subst h
    subst hmake
    exact ⟨not_le.mp hn, rfl, rfl, rfl, rfl⟩

theorem reachable_limiterInv (env : Env) (credentials : CookieCredentials) (albumId : String)
    (n : Int) (s : System) (h : Reachable env credentials albumId n s) :
    LimiterInv n.toNat s := by
  obtain ⟨u, acts, hnew, hexec⟩ := h
  obtain ⟨-, hlim, -⟩ := NewUploader_ok env credentials albumId n u hnew
  refine exec_limiterInv env n.toNat acts (System.init u) s hexec ?_
  simp [LimiterInv, System.init, hlim]

/-- C1: in every state that a dispatcher built by `NewUploader(_, _, n)` with `n > 0` can
reach by any interleaving of calls and unit steps, the number of upload units that took a
permit and have not given it back equals the number of values queued in the limiter, and
is at most `n`. -/
theorem inFlight_le_limit (env : Env) (credentials : CookieCredentials) (albumId : String)
    (n : Int) (s : System) (hn : 0 < n) (h : Reachable env credentials albumId n s) :
    inFlight s = s.u.concurrentLimiter.buf.length ∧ (inFlight s : Int) ≤ n := by
  obtain ⟨hcap, hroom, hsum, hunits⟩ := reachable_limiterInv env credentials albumId n s h
  have hcount : inFlight s = (s.units.map permits).sum :=
    countP_eq_sum_permits s.units (fun t ht => (hunits t ht).1)
  refine ⟨by omega, ?_⟩
  have : (inFlight s : Int) ≤ (n.toNat : Int) := by
    have : inFlight s ≤ n.toNat := by omega
    exact_mod_cast this
  rwa [Int.toNat_of_nonneg hn.le] at this

theorem demoSystem_reachable : Reachable demoEnv demoCredentials "" 2 demoSystem :=
  ⟨demoUploader, demoRun, rfl, rfl⟩

/-- C1 at `demoSystem`: two units in flight under limit two. -/
theorem inFlight_le_limit_witness :
    (0 : Int) < 2 ∧ Reachable demoEnv demoCredentials "" 2 demoSystem ∧
    inFlight demoSystem = 2 ∧ (inFlight demoSystem : Int) ≤ 2 :=
  ⟨by decide, demoSystem_reachable, by decide,
    (inFlight_le_limit demoEnv demoCredentials "" 2 demoSystem (by decide)
      demoSystem_reachable).2⟩

/-! ## Enqueue: duplicates, non-media files, draining -/

theorem absolutePath_of_isAbs (env : Env) (p : String) (h : env.isAbs p = true) :
    absolutePath env p = (p, none) := by
  simp [absolutePath, h]

/-- C9: whatever step the program takes (a call of `AddUploadedFiles` or `EnqueueUpload`,
a step of an upload unit, a step of `WaitUploadsCompleted`), every path in the
deduplication set before the step is in it after the step; `AddUploadedFiles(files)`
maps exactly the given paths to `true`, keeps every other entry and every other field,
and a second call with the same paths changes nothing. -/
theorem uploadedFiles_monotone (env : Env) (s : System) (files : List String) :
    (∀ a s' p, step env s a = some s' → s.u.uploadedFiles.has p = true →
      s'.u.uploadedFiles.has p = true) ∧
    (∀ q, (AddUploadedFiles s.u files).uploadedFiles q =
      if q ∈ files then some true else s.u.uploadedFiles q) ∧
    (∀ q, (AddUploadedFiles s.u files).uploadedFiles.has q = true ↔
      s.u.uploadedFiles.has q = true ∨ q ∈ files) ∧
    AddUploadedFiles s.u files =
      { s.u with uploadedFiles := (AddUploadedFiles s.u files).uploadedFiles } ∧
    AddUploadedFiles (AddUploadedFiles s.u files) files = AddUploadedFiles s.u files := by
  refine ⟨fun a s' p h hp => step_has_mono env s s' a p h hp,
    AddUploadedFiles_lookup s.u files, ?_, AddUploadedFiles_frame s.u files, ?_⟩
  · intro q
    rw [AddUploadedFiles_has]
    simp [or_comm]
  · rw [AddUploadedFiles_frame (AddUploadedFiles s.u files) files]
    conv_rhs => rw [AddUploadedFiles_frame s.u files]
    have : (AddUploadedFiles (AddUploadedFiles s.u files) files).uploadedFiles =
        (AddUploadedFiles s.u files).uploadedFiles := by
      funext q
      rw [AddUploadedFiles_lookup, AddUploadedFiles_lookup]
      by_cases h : q ∈ files <;> simp [h]
    rw [this]
    conv_lhs => rw [AddUploadedFiles_frame s.u files]

/-- C9 at `demoSeeded`: the seeded path survives a step of the first upload unit. -/
theorem uploadedFiles_monotone_witness :
    demoSeeded.u.uploadedFiles.has "/home/user/z.jpg" = true ∧
    (step demoEnv demoSeeded (.unit 0 none)).map
      (fun s' => s'.u.uploadedFiles.has "/home/user/z.jpg") = some true := by
  refine ⟨by decide, ?_⟩
  cases h : step demoEnv demoSeeded (.unit 0 none) with
  | none =>
    have hsome : (step demoEnv demoSeeded (.unit 0 none)).isSome = true := by decide
    rw [h] at hsome
    cases hsome
  | some s' =>
    have hmono := (uploadedFiles_monotone demoEnv demoSeeded []).1 (.unit 0 none) s'
      "/home/user/z.jpg" h (by decide)
    simp [hmono]

/-! ## What one upload unit does -/

/-- C10: every run of an upload unit to its end, whichever of the four calls failed or
none, leaves as many permits in `concurrentLimiter` as there were before the unit took
its own; and a unit that finds a free permit and a positive counter does run to its
end. -/
theorem uploadFile_releases_permit (r : CallResults) (u : ConcurrentUploader) (p : String) :
    (∀ u', uploadFile r u p = .finished u' →
      u'.concurrentLimiter.buf.length = u.concurrentLimiter.buf.length ∧
      u'.concurrentLimiter.cap = u.concurrentLimiter.cap) ∧
    (u.concurrentLimiter.buf.length < u.concurrentLimiter.cap → 0 < u.waitingGroup →
      ∃ u', uploadFile r u p = .finished u' ∧
        u'.concurrentLimiter.buf.length = u.concurrentLimiter.buf.length) := by
  constructor
  · intro u' h
    rw [uploadFile_finished_limiter r u u' p h]
    exact BoolChan.cycled_length _
  · intro hfree hwg
    obtain ⟨u', h⟩ := uploadFile_finishes r u p hfree hwg
    refine ⟨u', h, ?_⟩
    rw [uploadFile_finished_limiter r u u' p h]
    exact (BoolChan.cycled_length _).1

/-- C10 at a unit whose `api.NewUpload` fails. -/
theorem uploadFile_releases_permit_witness :
    demoEnqueued.concurrentLimiter.buf.length < demoEnqueued.concurrentLimiter.cap ∧
    0 < demoEnqueued.waitingGroup ∧
    ∃ u', uploadFile (CallResults.newUploadFails "bad options") demoEnqueued
        "/home/user/photo.jpg" = .finished u' ∧
      u'.concurrentLimiter.buf.length = demoEnqueued.concurrentLimiter.buf.length :=
  ⟨by decide, by decide,
    (uploadFile_releases_permit _ demoEnqueued "/home/user/photo.jpg").2
      (by decide) (by decide)⟩

/-- C2 fails on the early returns: a unit started by `EnqueueUpload` whose `os.Open`
fails reports the error and ends without calling `Done`; the counter stays at one with
no unit left, so `Wait` can never pass. -/
theorem uploadFile_open_failure_skips_Done :
    (EnqueueUpload demoEnv demoUploader "/home/user/photo.jpg").spawned =
      some "/home/user/photo.jpg" ∧
    demoEnqueued.waitingGroup = 1 ∧
    ∃ u', uploadFile
        (CallResults.openFails "open /home/user/photo.jpg: no such file or directory")
        demoEnqueued "/home/user/photo.jpg" = .finished u' ∧
      u'.Errors = ["open /home/user/photo.jpg: no such file or directory"] ∧
      u'.waitingGroup = 1 ∧ waitStep u' .wgWait = none :=
  ⟨by decide, by decide, _, rfl, by decide, by decide, rfl⟩

/-- An upload unit on path `p` that runs alone and whose four calls all succeed (it finds
a free permit and a positive counter) runs to its end, sends exactly `p` on
`CompletedUploads` and nothing on `Errors` or `IgnoredUploads`, and leaves `p` in the
deduplication set; after any further steps of the program, while not draining,
`EnqueueUpload` of the same absolute path `p` returns nil, sends `p` on `IgnoredUploads`
and starts no unit. -/
theorem uploadFile_alone_success (env : Env) (u : ConcurrentUploader) (p : String)
    (hfree : u.concurrentLimiter.buf.length < u.concurrentLimiter.cap)
    (hwg : 0 < u.waitingGroup) :
    ∃ u', uploadFile CallResults.allOk u p = .finished u' ∧
      u'.CompletedUploads = u.CompletedUploads ++ [p] ∧
      u'.Errors = u.Errors ∧ u'.IgnoredUploads = u.IgnoredUploads ∧
      u'.uploadedFiles.has p = true ∧
      ∀ units waiters acts s2,
        exec env { u := u', units := units, waiters := waiters, fatal := none } acts =
          some s2 →
        s2.u.waiting = false → env.isAbs p = true →
          (EnqueueUpload env s2.u p).err = none ∧
          (EnqueueUpload env s2.u p).u =
            { s2.u with IgnoredUploads := s2.u.IgnoredUploads ++ [p] } ∧
          (EnqueueUpload env s2.u p).spawned = none := by
  refine ⟨_, uploadFile_succeeds CallResults.allOk u p hfree hwg rfl rfl rfl rfl,
    rfl, rfl, rfl, by simp [StringSet.has_assign], ?_⟩
  intro units waiters acts s2 hexec hw habs
  have hin : s2.u.uploadedFiles.has p = true :=
    exec_has_mono env acts _ s2 p hexec (by simp [StringSet.has_assign])
  simp [EnqueueUpload, hw, absolutePath_of_isAbs env p habs, hin]

/-- C7 fails when two uploads succeed at the same time: with limit two, the units for
`/home/user/a.jpg` and `/home/user/b.jpg` both get through their four calls; the first
is in the middle of the assignment of line 147 when the second starts its own, and the
runtime ends the program.  Nothing was sent on `CompletedUploads`, neither path is in
the deduplication set, and no step follows. -/
theorem concurrent_success_aborts :
    NewUploader demoEnv demoCredentials "" 2 = .ok demoUploader ∧
    exec demoEnv (System.init demoUploader) demoRaceRun = some demoRaced ∧
    demoRaced.fatal = some "fatal error: concurrent map writes" ∧
    demoRaced.u.CompletedUploads = [] ∧ demoRaced.u.Errors = [] ∧
    demoRaced.u.uploadedFiles.has "/home/user/a.jpg" = false ∧
    demoRaced.u.uploadedFiles.has "/home/user/b.jpg" = false ∧
    ∀ a, step demoEnv demoRaced a = none :=
  ⟨rfl, rfl, rfl, rfl, rfl, rfl, rfl, fun _ => rfl⟩

theorem exec_snoc (env : Env) (acts : List Action) (a : Action) (s0 s' : System) :
    exec env s0 (acts ++ [a]) = some s' ↔
      ∃ s, exec env s0 acts = some s ∧ step env s a = some s' := by
  induction acts generalizing s0 with
  | nil =>
    simp only [List.nil_append, exec]
    cases h : step env s0 a <;> simp [exec, h]
  | cons b rest ih =>
    simp only [List.cons_append, exec]
    cases h : step env s0 b with
    | none => simp
    | some s1 => simpa using ih s1

theorem WaiterStepAt.snoc (env : Env) (s0 : System) (acts : List Action) (a : Action)
    (k i : Nat) (pc : WaitPC) (sk sk' : System)
    (h : WaiterStepAt env s0 acts k i pc sk sk') :
    WaiterStepAt env s0 (acts ++ [a]) k i pc sk sk' := by
  obtain ⟨h1, h2, h3, h4⟩ := h
  have hk : k < acts.length := by
    by_contra hge
    rw [List.getElem?_eq_none (by omega)] at h2
    simp at h2
  exact ⟨by rw [List.take_append_of_le_length hk.le]; exact h1,
    by rw [List.getElem?_append_left hk]; exact h2, h3, h4⟩

theorem WaiterStepAt.last (env : Env) (s0 s s' : System) (acts : List Action) (i : Nat)
    (pc : WaitPC) (hexec : exec env s0 acts = some s) (hpc : s.waiters[i]? = some pc)
    (hstep : step env s (.waiter i) = some s') :
    WaiterStepAt env s0 (acts ++ [.waiter i]) acts.length i pc s s' :=
  ⟨by rw [List.take_left]; exact hexec, List.getElem?_concat_length _ _, hpc, hstep⟩

theorem WaiterStepAt.lt_length (env : Env) (s0 : System) (acts : List Action)
    (k i : Nat) (pc : WaitPC) (sk sk' : System)
    (h : WaiterStepAt env s0 acts k i pc sk sk') : k < acts.length := by
  by_contra hge
  have h2 := h.2.1
  rw [List.getElem?_eq_none (by omega)] at h2
  simp at h2

/-- A step changes the statement of the `i`-th caller only if it is a step of that
caller, or the call that makes it the `i`-th caller. -/
theorem stepNoConflict_waiter (env : Env) (s s' : System) (a : Action) (i : Nat)
    (pc' : WaitPC) (h : stepNoConflict env s a = some s') (hpc : s'.waiters[i]? = some pc') :
    s.waiters[i]? = some pc' ∨
    (a = .waiter i ∧ ∃ pc, s.waiters[i]? = some pc ∧ waitStep s.u pc = some (s'.u, pc')) ∨
    (s.waiters[i]? = none ∧ pc' = .setFlag) := by
  cases a with
  | addUploadedFiles files =>
    simp only [stepNoConflict, Option.some.injEq] at h
    subst h
    exact Or.inl hpc
  | enqueueUpload p =>
    simp only [stepNoConflict] at h
    split at h <;>
    · simp only [Option.some.injEq] at h
      subst h
      exact Or.inl hpc
  | unit j res =>
    simp only [stepNoConflict] at h
    split at h
    · exact absurd h (by simp)
    · split at h
      · exact absurd h (by simp)
      · simp only [Option.some.injEq] at h
        subst h
        exact Or.inl hpc
  | waitCall =>
    simp only [stepNoConflict, Option.some.injEq] at h
    subst h
    simp only at hpc
    by_cases hi : i < s.waiters.length
    · rw [List.getElem?_append_left hi] at hpc
      exact Or.inl hpc
    · right; right
      refine ⟨List.getElem?_eq_none (by omega), ?_⟩
      rw [List.getElem?_append_right (by omega)] at hpc
      cases hk : i - s.waiters.length with
      | zero => rw [hk] at hpc; simpa using hpc.symm
      | succ m => rw [hk] at hpc; simp at hpc
  | waiter j =>
    simp only [stepNoConflict] at h
    split at h
    · exact absurd h (by simp)
    · rename_i pc hget
      split at h
      · exact absurd h (by simp)
      · rename_i u' pc1 hstep
        simp only [Option.some.injEq] at h
        subst h
        simp only at hpc
        by_cases hji : j = i
        · subst hji
          right; left
          refine ⟨rfl, pc, hget, ?_⟩
          have hlt : j < s.waiters.length := by
            by_contra hge
            rw [List.getElem?_eq_none (by omega)] at hget
            simp at hget
          rw [List.getElem?_set_self hlt, Option.some.injEq] at hpc
          subst hpc
          exact hstep
        · rw [List.getElem?_set_ne hji] at hpc
          exact Or.inl hpc

theorem step_waiter (env : Env) (s s' : System) (a : Action) (i : Nat) (pc' : WaitPC)
    (h : step env s a = some s') (hpc : s'.waiters[i]? = some pc') :
    s.waiters[i]? = some pc' ∨
    (a = .waiter i ∧ ∃ pc, s.waiters[i]? = some pc ∧ waitStep s.u pc = some (s'.u, pc')) ∨
    (s.waiters[i]? = none ∧ pc' = .setFlag) := by
  rcases (step_inv env s s' a h).2 with ⟨msg, rfl⟩ | h'
  · exact Or.inl hpc
  · exact stepNoConflict_waiter env s s' a i pc' h' hpc

theorem waitStep_inv (u u' : ConcurrentUploader) (pc pc' : WaitPC)
    (h : waitStep u pc = some (u', pc')) :
    (pc = .setFlag ∧ pc' = .wgWait ∧ u'.waiting = true) ∨
    (pc = .wgWait ∧ pc' = .clearFlag ∧ u.waitingGroup = 0) ∨
    (pc = .clearFlag ∧ pc' = .returned ∧ u'.waiting = false) := by
  cases pc <;> simp [waitStep] at h
  · obtain ⟨rfl, rfl⟩ := h; simp
  · obtain ⟨h0, rfl, rfl⟩ := h; simp [h0]
  · obtain ⟨rfl, rfl⟩ := h; simp

theorem step_of_waitStep (env : Env) (s s' : System) (a : Action) (i : Nat) (pc pc' : WaitPC)
    (hstep : step env s a = some s') (ha : a = .waiter i)
    (hws : waitStep s.u pc = some (s'.u, pc')) :
    step env s (.waiter i) = some s' ∧
    ((pc = .setFlag ∧ pc' = .wgWait ∧ s'.u.waiting = true) ∨
     (pc = .wgWait ∧ pc' = .clearFlag ∧ s.u.waitingGroup = 0) ∨
     (pc = .clearFlag ∧ pc' = .returned ∧ s'.u.waiting = false)) :=
  ⟨ha ▸ hstep, waitStep_inv _ _ _ _ hws⟩

theorem wait_history (env : Env) (s0 : System) (hs0 : s0.waiters = []) (acts : List Action) :
    ∀ s, exec env s0 acts = some s → ∀ i,
      (s.waiters[i]? = some .wgWait → ∃ a, HasSetFlag env s0 acts i a) ∧
      (s.waiters[i]? = some .clearFlag →
        ∃ a b, a < b ∧ HasSetFlag env s0 acts i a ∧ HasPassedWait env s0 acts i b) ∧
      (s.waiters[i]? = some .returned →
        ∃ a b c, a < b ∧ b < c ∧ HasSetFlag env s0 acts i a ∧
          HasPassedWait env s0 acts i b ∧ HasClearedFlag env s0 acts i c) := by
  induction acts using List.reverseRecOn with
  | nil =>
    intro s h i
    simp only [exec, Option.some.injEq] at h
    subst h
    simp [hs0]
  | append_singleton acts x ih =>
    intro s' hexec i
    obtain ⟨s, hs, hstep⟩ := (exec_snoc env acts x s0 s').mp hexec
    obtain ⟨ih1, ih2, ih3⟩ := ih s hs i
    have liftS : ∀ a, HasSetFlag env s0 acts i a → HasSetFlag env s0 (acts ++ [x]) i a :=
      fun a ⟨sa, sa', h, hw⟩ => ⟨sa, sa', h.snoc env s0 acts x a i _ sa sa', hw⟩
    have liftP : ∀ b, HasPassedWait env s0 acts i b → HasPassedWait env s0 (acts ++ [x]) i b :=
      fun b ⟨sb, sb', h, hw⟩ => ⟨sb, sb', h.snoc env s0 acts x b i _ sb sb', hw⟩
    have liftC : ∀ c, HasClearedFlag env s0 acts i c →
        HasClearedFlag env s0 (acts ++ [x]) i c :=
      fun c ⟨sc, sc', h, hw⟩ => ⟨sc, sc', h.snoc env s0 acts x c i _ sc sc', hw⟩
    refine ⟨fun hpc => ?_, fun hpc => ?_, fun hpc => ?_⟩
    · rcases step_waiter env s s' x i _ hstep hpc with h | ⟨hx, pc, hget, hws⟩ | ⟨-, hne⟩
      · obtain ⟨a, ha⟩ := ih1 h
        exact ⟨a, liftS a ha⟩
      · obtain ⟨hst, hcase⟩ := step_of_waitStep env s s' x i pc _ hstep hx hws
        subst hx
        rcases hcase with ⟨rfl, -, hw⟩ | ⟨-, hc, -⟩ | ⟨-, hc, -⟩
        · exact ⟨acts.length, s, s', WaiterStepAt.last env s0 s s' acts i _ hs hget hst, hw⟩
        · cases hc
        · cases hc
      · cases hne
    · rcases step_waiter env s s' x i _ hstep hpc with h | ⟨hx, pc, hget, hws⟩ | ⟨-, hne⟩
      · obtain ⟨a, b, hab, ha, hb⟩ := ih2 h
        exact ⟨a, b, hab, liftS a ha, liftP b hb⟩
      · obtain ⟨hst, hcase⟩ := step_of_waitStep env s s' x i pc _ hstep hx hws
        subst hx
        rcases hcase with ⟨-, hc, -⟩ | ⟨rfl, -, hz⟩ | ⟨-, hc, -⟩
        · cases hc
        · obtain ⟨a, ha⟩ := ih1 hget
          obtain ⟨sa, sa', hsa, hwa⟩ := ha
          have hlt := hsa.lt_length
          exact ⟨a, acts.length, hlt, liftS a ⟨sa, sa', hsa, hwa⟩,
            s, s', WaiterStepAt.last env s0 s s' acts i _ hs hget hst, hz⟩
        · cases hc
      · cases hne
    · rcases step_waiter env s s' x i _ hstep hpc with h | ⟨hx, pc, hget, hws⟩ | ⟨-, hne⟩
      · obtain ⟨a, b, c, hab, hbc, ha, hb, hc⟩ := ih3 h
        exact ⟨a, b, c, hab, hbc, liftS a ha, liftP b hb, liftC c hc⟩
      · obtain ⟨hst, hcase⟩ := step_of_waitStep env s s' x i pc _ hstep hx hws
        subst hx
        rcases hcase with ⟨-, hc, -⟩ | ⟨-, hc, -⟩ | ⟨rfl, -, hw⟩
        · cases hc
        · cases hc
        · obtain ⟨a, b, hab, ha, hb⟩ := ih2 hget
          obtain ⟨sb, sb', hsb, hz⟩ := hb
          have hlt := hsb.lt_length
          exact ⟨a, b, acts.length, hab, hlt, liftS a ha, liftP b ⟨sb, sb', hsb, hz⟩,
            s, s', WaiterStepAt.last env s0 s s' acts i _ hs hget hst, hw⟩
      · cases hne

/-- C4: while the draining flag is set, `EnqueueUpload(p)` returns the error "Can't add
new uploads when waiting", leaves the dispatcher as it is (no event on any outcome
channel, deduplication set and counter unchanged) and starts no unit.  In every run of
the program, a caller of `WaitUploadsCompleted` that stands at `Wait` has set the flag
before; one that stands at the clearing of the flag has, after setting it, got past
`Wait` at a moment the counter was zero; and one that has returned has cleared the flag
after that. -/
theorem draining_rejects_enqueue (env : Env) (u : ConcurrentUploader) (p : String)
    (s0 s : System) (acts : List Action) (i : Nat) :
    (u.waiting = true →
      (EnqueueUpload env u p).err = some "Can't add new uploads when waiting" ∧
      (EnqueueUpload env u p).u = u ∧ (EnqueueUpload env u p).spawned = none) ∧
    (s0.waiters = [] → exec env s0 acts = some s →
      (s.waiters[i]? = some .wgWait → ∃ a, HasSetFlag env s0 acts i a) ∧
      (s.waiters[i]? = some .clearFlag →
        ∃ a b, a < b ∧ HasSetFlag env s0 acts i a ∧ HasPassedWait env s0 acts i b) ∧
      (s.waiters[i]? = some .returned →
        ∃ a b c, a < b ∧ b < c ∧ HasSetFlag env s0 acts i a ∧
          HasPassedWait env s0 acts i b ∧ HasClearedFlag env s0 acts i c)) := by
  constructor
  · intro hw
    simp [EnqueueUpload, hw]
  · intro hs0 hexec
    exact wait_history env s0 hs0 acts s hexec i

/-- C4 at `demoDraining` and at the run `demoDrainRun`. -/
theorem draining_rejects_enqueue_witness :
    demoDraining.waiting = true ∧
    (EnqueueUpload demoEnv demoDraining "/home/user/other.jpg").err =
      some "Can't add new uploads when waiting" ∧
    (System.init demoUploader).waiters = [] ∧
    exec demoEnv (System.init demoUploader) demoDrainRun = some demoDrained ∧
    demoDrained.waiters[0]? = some .returned ∧
    ∃ a b c, a < b ∧ b < c ∧
      HasSetFlag demoEnv (System.init demoUploader) demoDrainRun 0 a ∧
      HasPassedWait demoEnv (System.init demoUploader) demoDrainRun 0 b ∧
      HasClearedFlag demoEnv (System.init demoUploader) demoDrainRun 0 c :=
  ⟨rfl,
    ((draining_rejects_enqueue demoEnv demoDraining "/home/user/other.jpg"
      (System.init demoUploader) demoDrained demoDrainRun 0).1 rfl).1,
    rfl, rfl, rfl,
    ((draining_rejects_enqueue demoEnv demoDraining "/home/user/other.jpg"
      (System.init demoUploader) demoDrained demoDrainRun 0).2 rfl rfl).2.2 rfl⟩

end GPhotosUploader
